import Mathlib

/-!
Verification development for the FINMA LCR synthetic data generator
(`src/lcr_data_generator.py`, class `FINMALCRDataGenerator`).

The generator is embedded shallowly:

* Money and probability values are rationals (`ℚ`).  The source computes with
  IEEE doubles; every property proved here is either exact structural
  bookkeeping (identifiers, counters, field derivations) or carries an
  explicit rounding tolerance, so the rational model is faithful for the
  properties stated.
* `np.random.default_rng(seed)` deterministically maps a seed to a PCG64
  stream.  The stream itself is abstracted as an `Entropy` value (one raw
  integer stream and one raw fractional stream); every draw consumes one
  position of the single stream, mirroring the single RNG instance that all
  sampling flows through.  Each draw primitive guarantees exactly the range
  contract numpy documents (`integers lo hi` lands in `[lo, hi)`,
  `uniform a b` in `[a, b)`, `random` in `[0, 1)`, `choice xs` returns an
  element of `xs`), for every stream, so universally quantified theorems
  cover every possible run.
* Dates are modelled as integer day numbers (`ℤ`); the source renders them
  as ISO strings, a rendering that no claim depends on.
* Output files are modelled as the per-day record lists the source writes;
  serialization itself is I/O and out of scope.
-/

namespace LCRGen

/-- Abstract entropy of a seeded PCG64 bit generator: numpy guarantees the
stream is a pure function of the seed, so a seed is modelled by the stream
it determines. -/
structure Entropy where
  ints : Nat → Nat
  fracs : Nat → ℚ

/-- RNG state: the entropy streams plus the current read position.  All draw
primitives advance the position by one, so all randomness flows through one
monotonically advancing state, as in the source (`self.rng`). -/
structure RNG where
  ints : Nat → Nat
  fracs : Nat → ℚ
  pos : Nat

/-- Fractional part, used to coerce a raw stream value into `[0, 1)`. -/
def fract (q : ℚ) : ℚ := q - ⌊q⌋

def RNG.next (r : RNG) : RNG := { r with pos := r.pos + 1 }

/-- Model of `rng.integers(lo, hi)`: an integer in `[lo, hi)` (numpy's
default exclusive upper bound). -/
def RNG.integers (r : RNG) (lo hi : Nat) : Nat × RNG :=
  (lo + r.ints r.pos % (hi - lo), r.next)

/-- Model of `rng.uniform(a, b)`: a rational in `[a, b)`. -/
def RNG.uniform (r : RNG) (a b : ℚ) : ℚ × RNG :=
  (a + (b - a) * fract (r.fracs r.pos), r.next)

/-- Model of `rng.random()`: a rational in `[0, 1)`. -/
def RNG.random (r : RNG) : ℚ × RNG :=
  (fract (r.fracs r.pos), r.next)

/-- Model of `rng.choice(xs)` (weighted or unweighted): an element of `xs`.
The weights only shape the distribution, which no claim quantifies; the
model allows any element, a superset of the source behaviour, so invariant
proofs cover every run.  `dflt` is returned only for an empty list, which
the source never passes. -/
def RNG.choice {α : Type} (r : RNG) (xs : List α) (dflt : α) : α × RNG :=
  (xs.getD (r.ints r.pos % xs.length) dflt, r.next)

/-- Model of `rng.integers(lo, hi, size=n)`. -/
def RNG.integersVec (r : RNG) (lo hi : Nat) : Nat → List Nat × RNG
  | 0 => ([], r)
  | n + 1 =>
    let x := r.integers lo hi
    let rest := RNG.integersVec x.2 lo hi n
    (x.1 :: rest.1, rest.2)

/-- Model of `rng.choice(xs, size=n, p=...)`. -/
def RNG.choiceVec {α : Type} (r : RNG) (xs : List α) (dflt : α) : Nat → List α × RNG
  | 0 => ([], r)
  | n + 1 =>
    let c := r.choice xs dflt
    let rest := RNG.choiceVec c.2 xs dflt n
    (c.1 :: rest.1, rest.2)

/-- Python's `round` ties-to-even on the integer scale (`round(2.5) = 2`,
`round(3.5) = 4`, `round(-2.5) = -2`). -/
def roundHalfEven (q : ℚ) : ℤ :=
  if q - ⌊q⌋ < 1/2 then ⌊q⌋
  else if 1/2 < q - ⌊q⌋ then ⌊q⌋ + 1
  else if ⌊q⌋ % 2 = 0 then ⌊q⌋ else ⌊q⌋ + 1

/-- Python's `round(x, 2)`: round to two decimal places. -/
def round2 (q : ℚ) : ℚ := (roundHalfEven (q * 100) : ℚ) / 100

/-- Python's `{n:0wd}` zero-padded decimal formatting for nonnegative `n`. -/
def padNum (w : Nat) (n : Nat) : String :=
  let s := toString n
  String.mk (List.replicate (w - s.length) '0') ++ s

/-- Last `n` characters of a string (Python `s[-n:]` for `n ≤ len(s)`). -/
def lastChars (s : String) (n : Nat) : String :=
  String.mk (s.toList.reverse.take n).reverse

def chListStarts : List Char → List Char → Bool
  | [], _ => true
  | _ :: _, [] => false
  | a :: as, b :: bs => a = b && chListStarts as bs

def chListHasSub (sub : List Char) : List Char → Bool
  | [] => chListStarts sub []
  | c :: cs => chListStarts sub (c :: cs) || chListHasSub sub cs

/-- Python's substring test `sub in s`. -/
def strHasSub (s sub : String) : Bool := chListHasSub sub.toList s.toList

/-- One row of `self.hqla_assets`: `(code, selection weight, regulatory
level, haircut factor)` in the source's tuple order. -/
structure HqlaAssetRow where
  code : String
  weight : ℚ
  level : String
  haircut : ℚ
deriving DecidableEq, Inhabited

/-- One row of `self.deposit_types`: `(code, selection weight, counterparty
type, run-off rate, allows relationship discount, is operational)` in the
source's tuple order (indices 0,1,2,3,4,5). -/
structure DepositTypeRow where
  code : String
  weight : ℚ
  counterparty : String
  run_off : ℚ
  allows_discount : Bool
  is_operational : Bool
deriving DecidableEq, Inhabited

/-- One row of `self.currencies`: `(code, selection weight)`. -/
structure CurrencyRow where
  code : String
  weight : ℚ
deriving DecidableEq, Inhabited

/-- `self.hqla_assets` (source lines 59-68). -/
def hqla_assets : List HqlaAssetRow :=
  [⟨"CASH_SNB", 15/100, "L1", 1⟩,
   ⟨"CASH_VAULT", 5/100, "L1", 1⟩,
   ⟨"GOVT_BOND_CHF", 30/100, "L1", 1⟩,
   ⟨"GOVT_BOND_FOREIGN", 10/100, "L1", 1⟩,
   ⟨"CANTON_BOND", 15/100, "L2A", 85/100⟩,
   ⟨"COVERED_BOND", 10/100, "L2A", 85/100⟩,
   ⟨"EQUITY_SMI", 10/100, "L2B", 50/100⟩,
   ⟨"CORPORATE_BOND_AA", 5/100, "L2B", 50/100⟩]

/-- `self.deposit_types` (source lines 71-78). -/
def deposit_types : List DepositTypeRow :=
  [⟨"RETAIL_STABLE_INSURED", 40/100, "RETAIL", 3/100, true, true⟩,
   ⟨"RETAIL_STABLE", 30/100, "RETAIL", 5/100, true, true⟩,
   ⟨"RETAIL_LESS_STABLE", 15/100, "RETAIL", 10/100, false, false⟩,
   ⟨"CORPORATE_OPERATIONAL", 10/100, "CORPORATE", 25/100, false, true⟩,
   ⟨"CORPORATE_NON_OPERATIONAL", 4/100, "CORPORATE", 40/100, false, false⟩,
   ⟨"FINANCIAL_INSTITUTION", 1/100, "FINANCIAL_INSTITUTION", 1, false, false⟩]

/-- `self.currencies` (source lines 81-86). -/
def currencies : List CurrencyRow :=
  [⟨"CHF", 60/100⟩, ⟨"EUR", 20/100⟩, ⟨"USD", 15/100⟩, ⟨"GBP", 5/100⟩]

/-- `self.fx_rates` (source lines 89-94), a dict modelled as an association
list: units of CHF per unit of foreign currency. -/
def fx_rates : List (String × ℚ) :=
  [("CHF", 1), ("EUR", 95/100), ("USD", 88/100), ("GBP", 112/100)]

/-- `self.credit_ratings` (source line 97). -/
def credit_ratings : List String :=
  ["AAA", "AA+", "AA", "AA-", "A+", "A", "A-"]

/-- `self.smi_stocks` (source lines 100-111). -/
def smi_stocks : List String :=
  ["CH0012032048", "CH0244767585", "CH0038863350", "CH0012005267",
   "CH0012221716", "CH0024608827", "CH0012138530", "CH0012032113",
   "CH0025751329", "CH0210483332"]

/-- The attributes `FINMALCRDataGenerator.__init__` assigns (the RNG itself
is threaded separately through every sampling call). -/
structure GenState where
  num_customers : Nat
  target_lcr : ℚ
  hqla_assets : List HqlaAssetRow
  deposit_types : List DepositTypeRow
  currencies : List CurrencyRow
  fx_rates : List (String × ℚ)
  credit_ratings : List String
  smi_stocks : List String

/-- The reference tables of a generator state, bundled for the samplers. -/
structure Tables where
  hqla_assets : List HqlaAssetRow
  deposit_types : List DepositTypeRow
  currencies : List CurrencyRow
  fx_rates : List (String × ℚ)
  credit_ratings : List String
  smi_stocks : List String

def GenState.tables (g : GenState) : Tables :=
  ⟨g.hqla_assets, g.deposit_types, g.currencies, g.fx_rates,
   g.credit_ratings, g.smi_stocks⟩

/-- `FINMALCRDataGenerator.__init__` generalized over the reference tables
it assigns (the source hardcodes the table literals in its body; this
definition is the same body with the literals factored into parameters, so
that properties quantifying over weight tables can be stated).  The source
body is a sequence of unconditional field assignments: it contains no
weight-sum check, no conditional, and no raise statement. -/
def initWithTables (hq : List HqlaAssetRow) (dep : List DepositTypeRow)
    (cur : List CurrencyRow) (fx : List (String × ℚ))
    (ratings : List String) (smi : List String)
    (num_customers : Nat) (seed : Entropy) (target_lcr : ℚ) :
    GenState × RNG :=
  (⟨num_customers, target_lcr, hq, dep, cur, fx, ratings, smi⟩,
   ⟨seed.ints, seed.fracs, 0⟩)

/-- Construction viewed as a fallible operation, as the spec's
configuration-error taxonomy reads it.  Translating the source body
raise-site by raise-site: there are none, so the outcome is always `ok`. -/
def constructOutcome (hq : List HqlaAssetRow) (dep : List DepositTypeRow)
    (cur : List CurrencyRow) (fx : List (String × ℚ))
    (ratings : List String) (smi : List String)
    (num_customers : Nat) (seed : Entropy) (target_lcr : ℚ) :
    Except String (GenState × RNG) :=
  .ok (initWithTables hq dep cur fx ratings smi num_customers seed target_lcr)

/-- `FINMALCRDataGenerator.__init__(num_customers, random_seed, target_lcr)`
(source lines 53-111): assigns the hardcoded reference tables and seeds the
single RNG instance. -/
def FINMALCRDataGenerator.init (num_customers : Nat) (seed : Entropy)
    (target_lcr : ℚ) : GenState × RNG :=
  initWithTables hqla_assets deposit_types currencies fx_rates
    credit_ratings smi_stocks num_customers seed target_lcr

/-- One generated HQLA holding row (source lines 195-212). -/
structure HoldingRecord where
  HOLDING_ID : String
  AS_OF_DATE : ℤ
  ASSET_TYPE : String
  ISIN : Option String
  SECURITY_NAME : String
  CURRENCY : String
  QUANTITY : Option Nat
  MARKET_VALUE_CCY : ℚ
  MARKET_VALUE_CHF : ℚ
  FX_RATE : ℚ
  MATURITY_DATE : Option ℤ
  CREDIT_RATING : Option String
  SMI_CONSTITUENT : Bool
  HQLA_ELIGIBLE : Bool
  PORTFOLIO_CODE : String
  CUSTODIAN : String
deriving DecidableEq, Inhabited

/-- One generated deposit balance row (source lines 318-335). -/
structure DepositRecord where
  ACCOUNT_ID : String
  AS_OF_DATE : ℤ
  CUSTOMER_ID : String
  DEPOSIT_TYPE : String
  CURRENCY : String
  BALANCE_CCY : ℚ
  BALANCE_CHF : ℚ
  FX_RATE : ℚ
  IS_INSURED : Bool
  PRODUCT_COUNT : Nat
  ACCOUNT_TENURE_DAYS : Nat
  HAS_DIRECT_DEBIT : Bool
  IS_OPERATIONAL : Bool
  COUNTERPARTY_TYPE : String
  CUSTOMER_SEGMENT : String
  ACCOUNT_STATUS : String
deriving DecidableEq, Inhabited

/-- Auxiliary record for the per-position branch of the holding loop
(source lines 144-167): identifier, index-constituent flag, rating,
maturity, quantity, security name, and the RNG state after the branch. -/
structure HoldingDetails where
  isin : Option String
  smi : Bool
  rating : Option String
  maturity : Option ℤ
  quantity : Option Nat
  name : String
  rng : RNG

/-- Body of the per-holding loop of `generate_hqla_holdings` (source lines
140-212) for position `i` with pre-drawn asset type `ty` and currency
`cc`. -/
def mkHolding (T : Tables) (as_of : ℤ) (daily_variance : ℚ) (i : Nat)
    (ty cc : String) (r : RNG) : HoldingRecord × RNG :=
  let holding_id := "HOLD-" ++ toString as_of ++ "-" ++ padNum 5 (i + 1)
  let details : HoldingDetails :=
    if strHasSub ty "EQUITY" then
      let c := r.choice T.smi_stocks ""
      let q := c.2.integers 100 10000
      ⟨some c.1, true, none, none, some q.1, "SMI Stock " ++ lastChars c.1 4, q.2⟩
    else if strHasSub ty "BOND" || strHasSub ty "COVERED" then
      let num := r.integers 10000000 99999999
      let isin := cc ++ padNum 8 num.1
      let ra := num.2.choice T.credit_ratings ""
      let dm := ra.2.integers 365 3650
      ⟨some isin, false, some ra.1, some (as_of + (dm.1 : ℤ)), none,
       ty ++ " " ++ lastChars isin 6, dm.2⟩
    else
      ⟨none, false, none, none, none, ty, r⟩
  let bv :=
    if ty = "CASH_SNB" || ty = "CASH_VAULT" then
      details.rng.uniform 10000000 200000000
    else if strHasSub ty "EQUITY" then
      details.rng.uniform 5000000 100000000
    else
      details.rng.uniform 20000000 500000000
  let vf := bv.2.uniform (-(5:ℚ)/100) (5/100)
  let variance_factor := 1 + daily_variance * vf.1
  let market_value_chf := bv.1 * variance_factor
  let fx := (T.fx_rates.lookup cc).getD 1
  let market_value_ccy := if cc ≠ "CHF" then market_value_chf / fx else market_value_chf
  let el := vf.2.random
  let hqla_eligible := decide ((5:ℚ)/100 < el.1)
  let pf := el.2.choice ["TREASURY_LIQ", "TREASURY_INV", "ALM_BUFFER"] ""
  let cu := pf.2.choice ["SIX SIS", "EUROCLEAR", "CLEARSTREAM"] ""
  (⟨holding_id, as_of, ty, details.isin, details.name, cc, details.quantity,
    round2 market_value_ccy, round2 market_value_chf, fx, details.maturity,
    details.rating, details.smi, hqla_eligible, pf.1, cu.1⟩, cu.2)

/-- The `for i, (asset_type, currency) in enumerate(...)` loop of
`generate_hqla_holdings`. -/
def holdLoop (T : Tables) (as_of : ℤ) (dv : ℚ) :
    Nat → List (String × String) → RNG → List HoldingRecord × RNG
  | _, [], r => ([], r)
  | i, s :: rest, r =>
    let step := mkHolding T as_of dv i s.1 s.2 r
    let tail := holdLoop T as_of dv (i + 1) rest step.2
    (step.1 :: tail.1, tail.2)

/-- Core of `generate_hqla_holdings(as_of_date, daily_variance)` (source
lines 113-214): draws the holding count in `[150, 300)`, then the asset
types and currencies positionally, then builds one record per position. -/
def hqlaCore (T : Tables) (as_of : ℤ) (daily_variance : ℚ) (r : RNG) :
    List HoldingRecord × RNG :=
  let n := r.integers 150 300
  let tys := n.2.choiceVec (T.hqla_assets.map (·.code)) "" n.1
  let ccs := tys.2.choiceVec (T.currencies.map (·.code)) "" n.1
  holdLoop T as_of daily_variance 0 (tys.1.zip ccs.1) ccs.2

def generate_hqla_holdings (g : GenState) (as_of : ℤ) (daily_variance : ℚ)
    (r : RNG) : List HoldingRecord × RNG :=
  hqlaCore g.tables as_of daily_variance r

/-- Deposit-type metadata lookup `next(d for d in self.deposit_types if
d[0] == deposit_type)` (source line 269).  The source raises if the code is
absent; codes are always drawn from the table, so the fallback row is
unreachable in every call the generator makes. -/
def metaOf (T : Tables) (ty : String) : DepositTypeRow :=
  (T.deposit_types.find? (fun d => d.code == ty)).getD ⟨ty, 0, "", 0, false, false⟩

def counterpartyOf (T : Tables) (ty : String) : String :=
  (metaOf T ty).counterparty

/-- Balance draw by counterparty type (source lines 274-283). -/
def drawBalance (cpty : String) (r : RNG) : ℚ × RNG :=
  if cpty = "RETAIL" then r.uniform 5000 80000
  else if cpty = "CORPORATE" then r.uniform 30000 800000
  else r.uniform 100000 3000000

/-- Customer segment derivation (source lines 304-313): a pure function of
the counterparty type and the (pre-rounding) balance in CHF; it takes no
RNG. -/
def customerSegment (cpty : String) (balance_chf : ℚ) : String :=
  if cpty = "RETAIL" then
    if balance_chf < 50000 then "MASS"
    else if balance_chf < 250000 then "AFFLUENT"
    else "PRIVATE"
  else "CORPORATE"

/-- Expansion of the customer list by the per-customer account counts
(source lines 235-237). -/
def expandCustomers : List String → List Nat → List String
  | [], _ => []
  | _ :: _, [] => []
  | c :: cs, k :: ks => List.replicate k c ++ expandCustomers cs ks

/-- Body of the per-account loop of `generate_deposit_balances` (source
lines 257-335) for customer `cust`, pre-drawn deposit type `ty`, pre-drawn
currency `cc`, and per-customer account ordinal `ord`. -/
def mkDeposit (T : Tables) (as_of : ℤ) (cust ty cc : String) (ord : Nat)
    (r : RNG) : DepositRecord × RNG :=
  let account_id := cust ++ "_DEP_" ++ padNum 2 ord
  let meta := metaOf T ty
  let cpty := meta.counterparty
  let bal := drawBalance cpty r
  let fx := (T.fx_rates.lookup cc).getD 1
  let balance_ccy := if cc ≠ "CHF" then bal.1 / fx else bal.1
  let is_insured := decide (cpty = "RETAIL") && decide (bal.1 ≤ 100000)
  let pc := if meta.allows_discount then bal.2.integers 1 6 else (1, bal.2)
  let tenure := pc.2.integers 30 3650
  let dd := tenure.2.random
  let has_direct_debit := decide (dd.1 < if cpty = "RETAIL" then (7:ℚ)/10 else 3/10)
  let segment := customerSegment cpty bal.1
  let st := dd.2.random
  let account_status := if st.1 < 98/100 then "ACTIVE" else "DORMANT"
  (⟨account_id, as_of, cust, ty, cc, round2 balance_ccy, round2 bal.1, fx,
    is_insured, pc.1, tenure.1, has_direct_debit, meta.is_operational, cpty,
    segment, account_status⟩, st.2)

/-- The per-account loop of `generate_deposit_balances`, threading the
per-customer account counter dict (`customer_account_counter`, modelled as
a function defaulting to 0: the source stores the last ordinal issued). -/
def depLoop (T : Tables) (as_of : ℤ) :
    List (String × String × String) → RNG → (String → Nat) →
    List DepositRecord × RNG
  | [], r, _ => ([], r)
  | s :: rest, r, ctr =>
    let ord := ctr s.1 + 1
    let step := mkDeposit T as_of s.1 s.2.1 s.2.2 ord r
    let tail := depLoop T as_of rest step.2 (fun x => if x = s.1 then ord else ctr x)
    (step.1 :: tail.1, tail.2)

/-- Core of `generate_deposit_balances(as_of_date, customer_ids)` (source
lines 216-337): draws 1-3 accounts per customer, expands the customer list,
draws deposit types and currencies (deposits draw only from CHF, EUR, USD)
positionally, then builds one record per expanded slot. -/
def depCore (T : Tables) (as_of : ℤ) (customer_ids : List String) (r : RNG) :
    List DepositRecord × RNG :=
  let ks := r.integersVec 1 4 customer_ids.length
  let expanded := expandCustomers customer_ids ks.1
  let tys := ks.2.choiceVec (T.deposit_types.map (·.code)) "" expanded.length
  let ccs := tys.2.choiceVec ["CHF", "EUR", "USD"] "" expanded.length
  depLoop T as_of (expanded.zip (tys.1.zip ccs.1)) ccs.2 (fun _ => 0)

def generate_deposit_balances (g : GenState) (as_of : ℤ)
    (customer_ids : List String) (r : RNG) : List DepositRecord × RNG :=
  depCore g.tables as_of customer_ids r

/-- The per-day loop of `generate_time_series` (source lines 368-388):
`rem` days remain, `day` is the current 0-based day index, `total` the
total day count.  A day's pair of record lists models the day's pair of
output files. -/
def seriesLoop (T : Tables) (cids : List String) (start : ℤ) (total : Nat) :
    Nat → Nat → RNG → List (List HoldingRecord × List DepositRecord) × RNG
  | 0, _, r => ([], r)
  | rem + 1, day, r =>
    let dv : ℚ := if day = 0 then 0 else (day : ℚ) / (total : ℚ)
    let h := hqlaCore T (start + day) dv r
    let d := depCore T (start + day) cids h.2
    let tail := seriesLoop T cids start total rem (day + 1) d.2
    ((h.1, d.1) :: tail.1, tail.2)

/-- `generate_time_series(start_date, num_days, output_dir, customer_ids)`
(source lines 339-391): synthesizes customer ids when none are supplied,
iterates the days, and returns the emitted per-day record lists together
with the total record counts the source returns. -/
def generate_time_series (g : GenState) (start_date : ℤ) (num_days : Nat)
    (customer_ids : Option (List String)) (r : RNG) :
    (List (List HoldingRecord × List DepositRecord) × Nat × Nat) × RNG :=
  let cids := customer_ids.getD
    ((List.range g.num_customers).map (fun i => "CUST-" ++ padNum 6 (i + 1)))
  let days := seriesLoop g.tables cids start_date num_days num_days 0 r
  ((days.1, (days.1.map (fun p => p.1.length)).sum,
    (days.1.map (fun p => p.2.length)).sum), days.2)

/-! ### Arithmetic facts about the rounding and draw primitives -/

theorem fract_nonneg (q : ℚ) : 0 ≤ fract q := by
  have := Int.floor_le q
  simp only [fract]
  linarith

theorem fract_lt_one (q : ℚ) : fract q < 1 := by
  have := Int.lt_floor_add_one q
  simp only [fract]
  linarith

theorem abs_roundHalfEven_sub (q : ℚ) : |(roundHalfEven q : ℚ) - q| ≤ 1/2 := by
  have h0 : ((⌊q⌋ : ℤ) : ℚ) ≤ q := Int.floor_le q
  have h1 : q < (⌊q⌋ : ℚ) + 1 := Int.lt_floor_add_one q
  unfold roundHalfEven
  split_ifs with hlt hgt heven <;>
    rw [abs_le] <;> constructor <;> push_cast <;> linarith

theorem roundHalfEven_le {q : ℚ} {m : ℤ} (h : q ≤ (m : ℚ)) :
    roundHalfEven q ≤ m := by
  have h0 : ((⌊q⌋ : ℤ) : ℚ) ≤ q := Int.floor_le q
  have hfm : ⌊q⌋ ≤ m := by
    have := Int.floor_le_floor h
    simpa using this
  unfold roundHalfEven
  split_ifs with hlt hgt heven
  · exact hfm
  · have hq : ((⌊q⌋ : ℤ) : ℚ) < (m : ℚ) := by linarith
    have : ⌊q⌋ < m := by exact_mod_cast hq
    omega
  · exact hfm
  · have hq : ((⌊q⌋ : ℤ) : ℚ) < (m : ℚ) := by
      have : q - (⌊q⌋ : ℚ) = 1/2 := le_antisymm (not_lt.1 hgt) (not_lt.1 hlt)
      linarith
    have : ⌊q⌋ < m := by exact_mod_cast hq
    omega

theorem abs_round2_sub (q : ℚ) : |round2 q - q| ≤ 1/200 := by
  have h := abs_roundHalfEven_sub (q * 100)
  have e : round2 q - q = ((roundHalfEven (q * 100) : ℚ) - q * 100) / 100 := by
    rw [round2]; ring
  rw [e, abs_div]
  rw [show |(100 : ℚ)| = 100 by norm_num]
  linarith

theorem round2_le_100000 {q : ℚ} (h : q ≤ 100000) : round2 q ≤ 100000 := by
  have h1 : q * 100 ≤ ((10000000 : ℤ) : ℚ) := by push_cast; linarith
  have h2 : roundHalfEven (q * 100) ≤ 10000000 := roundHalfEven_le h1
  have h3 : ((roundHalfEven (q * 100) : ℤ) : ℚ) ≤ 10000000 := by exact_mod_cast h2
  rw [round2]
  linarith

/-- Rounding both sides of the FX conversion to two decimals perturbs the
identity `ccy × fx = chf` by at most half an ulp on each side. -/
theorem round2_fx_conv {v fx : ℚ} (hfx : 0 < fx) :
    |round2 (v / fx) * fx - round2 v| ≤ (1 + fx) / 200 := by
  have h1 := abs_round2_sub (v / fx)
  have h2 := abs_round2_sub v
  have e : round2 (v / fx) * fx - round2 v
      = (round2 (v / fx) - v / fx) * fx + (v / fx * fx - v) + (v - round2 v) := by
    ring
  have hvf : v / fx * fx = v := div_mul_cancel₀ v (ne_of_gt hfx)
  have habs : |(round2 (v / fx) - v / fx) * fx| ≤ 1/200 * fx := by
    rw [abs_mul, abs_of_pos hfx]
    exact mul_le_mul_of_nonneg_right h1 (le_of_lt hfx)
  calc |round2 (v / fx) * fx - round2 v|
      = |(round2 (v / fx) - v / fx) * fx + (v - round2 v)| := by rw [e, hvf]; ring_nf
    _ ≤ |(round2 (v / fx) - v / fx) * fx| + |v - round2 v| := abs_add _ _
    _ ≤ 1/200 * fx + 1/200 := by
        have := abs_sub_comm v (round2 v)
        have h2' : |v - round2 v| ≤ 1/200 := by rw [abs_sub_comm]; exact h2
        linarith
    _ ≤ (1 + fx) / 200 := by linarith

theorem RNG.integers_ge (r : RNG) (lo hi : Nat) : lo ≤ (r.integers lo hi).1 :=
  Nat.le_add_right _ _

theorem RNG.integers_lt (r : RNG) {lo hi : Nat} (h : lo < hi) :
    (r.integers lo hi).1 < hi := by
  have hm : r.ints r.pos % (hi - lo) < hi - lo :=
    Nat.mod_lt _ (Nat.sub_pos_of_lt h)
  simp only [RNG.integers]
  omega

theorem RNG.choice_mem {α : Type} (r : RNG) {xs : List α} (dflt : α)
    (h : xs ≠ []) : (r.choice xs dflt).1 ∈ xs := by
  have hl : 0 < xs.length := List.length_pos.2 h
  have hm : r.ints r.pos % xs.length < xs.length := Nat.mod_lt _ hl
  simp only [RNG.choice]
  rw [List.getD_eq_getElem xs dflt hm]
  exact List.getElem_mem hm

theorem RNG.choiceVec_length {α : Type} (xs : List α) (dflt : α) :
    ∀ (n : Nat) (r : RNG), ((r.choiceVec xs dflt n).1).length = n := by
  intro n
  induction n with
  | zero => intro r; rfl
  | succ m ih =>
    intro r
    simp only [RNG.choiceVec, List.length_cons]
    rw [ih]

theorem RNG.choiceVec_mem {α : Type} {xs : List α} (dflt : α) (h : xs ≠ []) :
    ∀ (n : Nat) (r : RNG) (x : α), x ∈ (r.choiceVec xs dflt n).1 → x ∈ xs := by
  intro n
  induction n with
  | zero => intro r x hx; simp [RNG.choiceVec] at hx
  | succ m ih =>
    intro r x hx
    simp only [RNG.choiceVec, List.mem_cons] at hx
    rcases hx with hx | hx
    · exact hx ▸ RNG.choice_mem r dflt h
    · exact ih _ x hx

theorem RNG.integersVec_length (lo hi : Nat) :
    ∀ (n : Nat) (r : RNG), ((r.integersVec lo hi n).1).length = n := by
  intro n
  induction n with
  | zero => intro r; rfl
  | succ m ih =>
    intro r
    simp only [RNG.integersVec, List.length_cons]
    rw [ih]

/-! ### Structural facts about the sampling loops -/

/-- Field projections of a deposit record, read off the loop body. -/
theorem mkDeposit_proj (T : Tables) (as_of : ℤ) (cust ty cc : String)
    (ord : Nat) (r : RNG) :
    (mkDeposit T as_of cust ty cc ord r).1.ACCOUNT_ID
        = cust ++ "_DEP_" ++ padNum 2 ord
    ∧ (mkDeposit T as_of cust ty cc ord r).1.CUSTOMER_ID = cust
    ∧ (mkDeposit T as_of cust ty cc ord r).1.CURRENCY = cc
    ∧ (mkDeposit T as_of cust ty cc ord r).1.COUNTERPARTY_TYPE
        = (metaOf T ty).counterparty
    ∧ (mkDeposit T as_of cust ty cc ord r).1.IS_INSURED
        = (decide ((metaOf T ty).counterparty = "RETAIL")
            && decide ((drawBalance (metaOf T ty).counterparty r).1 ≤ 100000))
    ∧ (mkDeposit T as_of cust ty cc ord r).1.BALANCE_CHF
        = round2 (drawBalance (metaOf T ty).counterparty r).1
    ∧ (mkDeposit T as_of cust ty cc ord r).1.CUSTOMER_SEGMENT
        = customerSegment (metaOf T ty).counterparty
            (drawBalance (metaOf T ty).counterparty r).1
    ∧ (mkDeposit T as_of cust ty cc ord r).1.FX_RATE
        = (T.fx_rates.lookup cc).getD 1
    ∧ (mkDeposit T as_of cust ty cc ord r).1.BALANCE_CCY
        = round2 (if cc ≠ "CHF"
            then (drawBalance (metaOf T ty).counterparty r).1
                  / (T.fx_rates.lookup cc).getD 1
            else (drawBalance (metaOf T ty).counterparty r).1) :=
  ⟨rfl, rfl, rfl, rfl, rfl, rfl, rfl, rfl, rfl⟩

/-- Every record emitted by the deposit loop is the loop body applied to
one of the slots. -/
theorem depLoop_shape (T : Tables) (as_of : ℤ) :
    ∀ (slots : List (String × String × String)) (r : RNG)
      (ctr : String → Nat) (rec : DepositRecord),
      rec ∈ (depLoop T as_of slots r ctr).1 →
      ∃ (cust ty cc : String) (ord : Nat) (r' : RNG),
        rec = (mkDeposit T as_of cust ty cc ord r').1 ∧ (cust, ty, cc) ∈ slots := by
  intro slots
  induction slots with
  | nil => intro r ctr rec h; simp [depLoop] at h
  | cons s rest ih =>
    intro r ctr rec h
    simp only [depLoop, List.mem_cons] at h
    rcases h with h | h
    · exact ⟨s.1, s.2.1, s.2.2, ctr s.1 + 1, r, h, by simp⟩
    · obtain ⟨cust, ty, cc, ord, r', heq, hmem⟩ := ih _ _ rec h
      exact ⟨cust, ty, cc, ord, r', heq, List.mem_cons_of_mem _ hmem⟩

/-- Field projections of a holding record, read off the loop body: the
market values derive from a single pre-rounding CHF value `v`. -/
theorem mkHolding_conv (T : Tables) (as_of : ℤ) (dv : ℚ) (i : Nat)
    (ty cc : String) (r : RNG) :
    ∃ v : ℚ,
      (mkHolding T as_of dv i ty cc r).1.MARKET_VALUE_CHF = round2 v
      ∧ (mkHolding T as_of dv i ty cc r).1.MARKET_VALUE_CCY
          = round2 (if cc ≠ "CHF" then v / (T.fx_rates.lookup cc).getD 1 else v)
      ∧ (mkHolding T as_of dv i ty cc r).1.FX_RATE = (T.fx_rates.lookup cc).getD 1
      ∧ (mkHolding T as_of dv i ty cc r).1.CURRENCY = cc :=
  ⟨_, rfl, rfl, rfl, rfl⟩

/-- Every record emitted by the holding loop is the loop body applied to
one of the slots. -/
theorem holdLoop_shape (T : Tables) (as_of : ℤ) (dv : ℚ) :
    ∀ (i : Nat) (slots : List (String × String)) (r : RNG) (rec : HoldingRecord),
      rec ∈ (holdLoop T as_of dv i slots r).1 →
      ∃ (j : Nat) (ty cc : String) (r' : RNG),
        rec = (mkHolding T as_of dv j ty cc r').1 ∧ (ty, cc) ∈ slots := by
  intro i slots
  induction slots generalizing i with
  | nil => intro r rec h; simp [holdLoop] at h
  | cons s rest ih =>
    intro r rec h
    simp only [holdLoop, List.mem_cons] at h
    rcases h with h | h
    · exact ⟨i, s.1, s.2, r, h, by simp⟩
    · obtain ⟨j, ty, cc, r', heq, hmem⟩ := ih _ _ rec h
      exact ⟨j, ty, cc, r', heq, List.mem_cons_of_mem _ hmem⟩

theorem holdLoop_length (T : Tables) (as_of : ℤ) (dv : ℚ) :
    ∀ (slots : List (String × String)) (i : Nat) (r : RNG),
      ((holdLoop T as_of dv i slots r).1).length = slots.length := by
  intro slots
  induction slots with
  | nil => intro i r; rfl
  | cons s rest ih =>
    intro i r
    simp only [holdLoop, List.length_cons]
    rw [ih]

/-- The account identifiers that the deposit loop assigns to customer `c`,
in emission order: consecutive ordinals continuing from the counter state,
one per slot belonging to `c`. -/
theorem depLoop_filterMap (T : Tables) (as_of : ℤ) (c : String) :
    ∀ (slots : List (String × String × String)) (r : RNG) (ctr : String → Nat),
      ((depLoop T as_of slots r ctr).1.filterMap
        (fun rec => if rec.CUSTOMER_ID = c then some rec.ACCOUNT_ID else none))
      = (List.range (slots.countP (fun s => decide (s.1 = c)))).map
          (fun j => c ++ "_DEP_" ++ padNum 2 (ctr c + j + 1)) := by
  intro slots
  induction slots with
  | nil => intro r ctr; simp [depLoop]
  | cons s rest ih =>
    intro r ctr
    obtain ⟨a, ty, cc⟩ := s
    by_cases h : a = c
    · subst h
      simp only [depLoop]
      rw [List.filterMap_cons_some (show _ = some (a ++ "_DEP_" ++ padNum 2 (ctr a + 1)) from by
        rw [if_pos (mkDeposit_proj T as_of a ty cc (ctr a + 1) r).2.1,
          (mkDeposit_proj T as_of a ty cc (ctr a + 1) r).1])]
      rw [ih]
      rw [show (List.countP (fun s => decide (s.1 = a)) ((a, ty, cc) :: rest))
            = List.countP (fun s => decide (s.1 = a)) rest + 1 by
        rw [List.countP_cons]; simp]
      rw [List.range_succ_eq_map, List.map_cons, List.map_map]
      congr 1
      refine List.map_congr_left fun j _ => ?_
      simp only [Function.comp]
      rw [if_true]
      exact congrArg (fun m => a ++ "_DEP_" ++ padNum 2 m)
        (show ctr a + 1 + j + 1 = ctr a + (j + 1) + 1 by omega)
    · simp only [depLoop]
      rw [List.filterMap_cons_none (by
        rw [if_neg]
        rw [(mkDeposit_proj T as_of a ty cc (ctr a + 1) r).2.1]
        exact h)]
      rw [show (List.countP (fun s => decide (s.1 = c)) ((a, ty, cc) :: rest))
            = List.countP (fun s => decide (s.1 = c)) rest by
        rw [List.countP_cons]; simp [h]]
      rw [ih]
      refine List.map_congr_left fun j _ => ?_
      rw [if_neg (fun hc => h hc.symm)]

theorem countP_replicate {α : Type} (p : α → Bool) (a : α) :
    ∀ n : Nat, (List.replicate n a).countP p = if p a then n else 0 := by
  intro n
  induction n with
  | zero => simp
  | succ m ih =>
    rw [List.replicate_succ, List.countP_cons, ih]
    by_cases h : p a = true
    · simp [h]
    · simp [h]

theorem mem_expandCustomers :
    ∀ (cids : List String) (ks : List Nat) (x : String),
      x ∈ expandCustomers cids ks → x ∈ cids := by
  intro cids
  induction cids with
  | nil => intro ks x h; simp [expandCustomers] at h
  | cons c cs ih =>
    intro ks x h
    cases ks with
    | nil => simp [expandCustomers] at h
    | cons k ks =>
      simp only [expandCustomers, List.mem_append] at h
      rcases h with h | h
      · exact (List.eq_of_mem_replicate h) ▸ List.mem_cons_self c cs
      · exact List.mem_cons_of_mem _ (ih ks x h)

/-- With pairwise-distinct customers, the expanded slot list contains
customer `c` exactly as many times as `c`'s drawn account count. -/
theorem expandCustomers_countP {c : String} {k : Nat} :
    ∀ (cids : List String) (ks : List Nat), cids.Nodup →
      (c, k) ∈ cids.zip ks →
      (expandCustomers cids ks).countP (fun x => decide (x = c)) = k := by
  intro cids
  induction cids with
  | nil => intro ks _ h; simp at h
  | cons a cs ih =>
    intro ks hnd hmem
    cases ks with
    | nil => simp at hmem
    | cons k0 ks =>
      rw [List.nodup_cons] at hnd
      simp only [List.zip_cons_cons, List.mem_cons] at hmem
      rcases hmem with heq | hmem
      · injection heq with h1 h2
        subst h1; subst h2
        rw [show expandCustomers (c :: cs) (k :: ks)
              = List.replicate k c ++ expandCustomers cs ks from rfl]
        rw [List.countP_append, countP_replicate]
        rw [if_pos (by simp)]
        have hz : (expandCustomers cs ks).countP (fun x => decide (x = c)) = 0 := by
          rw [List.countP_eq_zero]
          intro x hx
          simp only [decide_eq_true_eq]
          intro hxa
          exact hnd.1 (hxa ▸ mem_expandCustomers cs ks x hx)
        rw [hz]
        omega
      · have hcm : c ∈ cs := (List.of_mem_zip hmem).1
        have hac : ¬ (a = c) := fun hh => hnd.1 (hh ▸ hcm)
        rw [show expandCustomers (a :: cs) (k0 :: ks)
              = List.replicate k0 a ++ expandCustomers cs ks from rfl]
        rw [List.countP_append, countP_replicate]
        rw [if_neg (by simpa using hac)]
        rw [Nat.zero_add]
        exact ih ks hnd.2 hmem

theorem zip_countP_fst {α β : Type} (p : α → Bool) :
    ∀ (l1 : List α) (l2 : List β), l1.length ≤ l2.length →
      ((l1.zip l2).countP (fun s => p s.1)) = l1.countP p := by
  intro l1
  induction l1 with
  | nil => intro l2 _; simp
  | cons a l1 ih =>
    intro l2 hl
    cases l2 with
    | nil => simp at hl
    | cons b l2 =>
      simp only [List.zip_cons_cons, List.countP_cons]
      rw [ih l2 (by simpa using hl)]

/-! ### Concrete fixtures used by witness theorems -/

/-- A concrete entropy source (all-zero streams). -/
def zeroEntropy : Entropy := ⟨fun _ => 0, fun _ => 0⟩

def sampleState : GenState := (FINMALCRDataGenerator.init 2 zeroEntropy 95).1

def sampleRNG : RNG := (FINMALCRDataGenerator.init 2 zeroEntropy 95).2

/-- The malformed reference table used to exercise construction with
weights that do not sum to 1. -/
def badHqlaTable : List HqlaAssetRow := [⟨"BAD_ASSET", 1/2, "L1", 1⟩]

/-! ### Claims -/

/-- C1 (counterexample): the claim says construction must fail with a
configuration error for every weight list whose sum differs from 1, before
any sampling.  Here is a weight table summing to 1/2, and construction
nevertheless succeeds (returns the state; no error outcome exists in
`__init__`). -/
theorem C1_construction_accepts_bad_weights :
    (badHqlaTable.map (·.weight)).sum ≠ 1
    ∧ constructOutcome badHqlaTable deposit_types currencies fx_rates
        credit_ratings smi_stocks 1000 zeroEntropy 95
      = .ok (initWithTables badHqlaTable deposit_types currencies fx_rates
          credit_ratings smi_stocks 1000 zeroEntropy 95) := by
  constructor
  · simp [badHqlaTable]
  · rfl

/-- C1 (amended): `FINMALCRDataGenerator.__init__` performs no weight-sum
validation and never fails — construction succeeds for every weight table,
including ones whose weights do not sum to 1; separately, the three
hardcoded reference tables (HQLA assets, deposit types, currencies) do each
have selection weights summing exactly to 1. -/
theorem C1_no_construction_validation :
    (∀ (hq : List HqlaAssetRow) (dep : List DepositTypeRow)
       (cur : List CurrencyRow) (fx : List (String × ℚ))
       (ratings smi : List String) (nc : Nat) (e : Entropy) (tl : ℚ),
       constructOutcome hq dep cur fx ratings smi nc e tl
         = .ok (initWithTables hq dep cur fx ratings smi nc e tl))
    ∧ (hqla_assets.map (·.weight)).sum = 1
    ∧ (deposit_types.map (·.weight)).sum = 1
    ∧ (currencies.map (·.weight)).sum = 1 :=
  ⟨fun _ _ _ _ _ _ _ _ _ => rfl,
   by with_unfolding_all rfl, by with_unfolding_all rfl,
   by with_unfolding_all rfl⟩

/-- C2: `generate_time_series` is deterministic — two generators
constructed from the same seed (hence, by numpy's contract, the same
entropy stream) and the same parameters produce identical per-day holding
and deposit record lists (and totals), because the embedding is a pure
function of the seed's stream and all randomness flows through the single
RNG state seeded once at construction. -/
theorem C2_determinism (e1 e2 : Entropy) (h : e1 = e2) (nc : Nat) (tl : ℚ)
    (start_date : ℤ) (num_days : Nat) (cids : Option (List String)) :
    generate_time_series (FINMALCRDataGenerator.init nc e1 tl).1 start_date
        num_days cids (FINMALCRDataGenerator.init nc e1 tl).2
    = generate_time_series (FINMALCRDataGenerator.init nc e2 tl).1 start_date
        num_days cids (FINMALCRDataGenerator.init nc e2 tl).2 := by
  subst h
  rfl

theorem C2_determinism_witness :
    generate_time_series (FINMALCRDataGenerator.init 2 zeroEntropy 95).1 0
        3 (some ["A"]) (FINMALCRDataGenerator.init 2 zeroEntropy 95).2
    = generate_time_series (FINMALCRDataGenerator.init 2 zeroEntropy 95).1 0
        3 (some ["A"]) (FINMALCRDataGenerator.init 2 zeroEntropy 95).2 :=
  C2_determinism zeroEntropy zeroEntropy rfl 2 95 0 3 (some ["A"])

/-- C3: for every deposit record of any run, if `IS_INSURED` is true then
the counterparty type is RETAIL and the emitted `BALANCE_CHF` is at most
100000. -/
theorem C3_insurance_invariant (g : GenState) (as_of : ℤ)
    (customer_ids : List String) (r : RNG) (rec : DepositRecord)
    (hmem : rec ∈ (generate_deposit_balances g as_of customer_ids r).1)
    (hins : rec.IS_INSURED = true) :
    rec.COUNTERPARTY_TYPE = "RETAIL" ∧ rec.BALANCE_CHF ≤ 100000 := by
  obtain ⟨cust, ty, cc, ord, r', heq, -⟩ :=
    depLoop_shape g.tables as_of _ _ _ rec hmem
  subst heq
  have hp := mkDeposit_proj g.tables as_of cust ty cc ord r'
  rw [hp.2.2.2.2.1, Bool.and_eq_true, decide_eq_true_eq, decide_eq_true_eq]
    at hins
  refine ⟨?_, ?_⟩
  · rw [hp.2.2.2.1]
    exact hins.1
  · rw [hp.2.2.2.2.2.1]
    exact round2_le_100000 hins.2

theorem C3_insurance_invariant_witness :
    (((generate_deposit_balances sampleState 0 ["CUST_00001"] sampleRNG).1.headD
        default).COUNTERPARTY_TYPE = "RETAIL")
    ∧ (((generate_deposit_balances sampleState 0 ["CUST_00001"] sampleRNG).1.headD
        default).BALANCE_CHF ≤ 100000) :=
  C3_insurance_invariant sampleState 0 ["CUST_00001"] sampleRNG _
    (by with_unfolding_all exact List.mem_cons_self _ _)
    (by with_unfolding_all rfl)

/-- C4: when `generate_deposit_balances` is called with pairwise-distinct
customer ids, a customer whose drawn account count is `k` receives exactly
the account ids `{customer_id}_DEP_{01..k}` — ordinals 1..k in order,
numbered per customer with the counter reset each call, not globally. -/
theorem C4_account_numbering (g : GenState) (as_of : ℤ)
    (customer_ids : List String) (r : RNG)
    (hnd : customer_ids.Nodup) (ck : String × Nat)
    (hck : ck ∈ customer_ids.zip (r.integersVec 1 4 customer_ids.length).1) :
    ((generate_deposit_balances g as_of customer_ids r).1.filterMap
      (fun rec => if rec.CUSTOMER_ID = ck.1 then some rec.ACCOUNT_ID else none))
    = (List.range ck.2).map (fun j => ck.1 ++ "_DEP_" ++ padNum 2 (j + 1)) := by
  show ((depLoop g.tables as_of _ _ _).1.filterMap _) = _
  rw [depLoop_filterMap]
  have hlen : (expandCustomers customer_ids
      (r.integersVec 1 4 customer_ids.length).1).length
      ≤ (((r.integersVec 1 4 customer_ids.length).2.choiceVec
            (g.tables.deposit_types.map (·.code)) ""
            (expandCustomers customer_ids
              (r.integersVec 1 4 customer_ids.length).1).length).1.zip
          (((r.integersVec 1 4 customer_ids.length).2.choiceVec
              (g.tables.deposit_types.map (·.code)) ""
              (expandCustomers customer_ids
                (r.integersVec 1 4 customer_ids.length).1).length).2.choiceVec
            ["CHF", "EUR", "USD"] ""
            (expandCustomers customer_ids
              (r.integersVec 1 4 customer_ids.length).1).length).1).length := by
    rw [List.length_zip, RNG.choiceVec_length, RNG.choiceVec_length]
    omega
  rw [zip_countP_fst (fun x => decide (x = ck.1)) _ _ hlen]
  rw [expandCustomers_countP customer_ids _ hnd
    (show (ck.1, ck.2) ∈ _ from hck)]
  refine List.map_congr_left fun j _ => ?_
  exact congrArg (fun m => ck.1 ++ "_DEP_" ++ padNum 2 m)
    (show 0 + j + 1 = j + 1 by omega)

theorem C4_account_numbering_witness :
    ((generate_deposit_balances sampleState 0 ["A", "B"] sampleRNG).1.filterMap
      (fun rec => if rec.CUSTOMER_ID = "A" then some rec.ACCOUNT_ID else none))
    = (List.range 1).map (fun j => "A" ++ "_DEP_" ++ padNum 2 (j + 1)) :=
  C4_account_numbering sampleState 0 ["A", "B"] sampleRNG (by decide) ("A", 1)
    (by with_unfolding_all exact List.mem_cons_self _ _)

/-- The FX conversion identity for each currency the generator's tables
know, after rounding both monetary fields to two decimals. -/
theorem fx_conv_cases (v : ℚ) {cc : String}
    (hcc : cc ∈ ["CHF", "EUR", "USD", "GBP"]) :
    |round2 (if cc ≠ "CHF" then v / (fx_rates.lookup cc).getD 1 else v)
        * ((fx_rates.lookup cc).getD 1) - round2 v|
      ≤ (1 + (fx_rates.lookup cc).getD 1) / 200
    ∧ (cc = "CHF" → (fx_rates.lookup cc).getD 1 = 1
        ∧ round2 (if cc ≠ "CHF" then v / (fx_rates.lookup cc).getD 1 else v)
            = round2 v) := by
  have hchf : (fx_rates.lookup "CHF").getD 1 = 1 := by with_unfolding_all rfl
  have heur : (fx_rates.lookup "EUR").getD 1 = 95/100 := by with_unfolding_all rfl
  have husd : (fx_rates.lookup "USD").getD 1 = 88/100 := by with_unfolding_all rfl
  have hgbp : (fx_rates.lookup "GBP").getD 1 = 112/100 := by with_unfolding_all rfl
  fin_cases hcc
  · refine ⟨?_, fun _ => ⟨hchf, by rw [if_neg (by simp)]⟩⟩
    rw [hchf, if_neg (by simp), mul_one, sub_self, abs_zero]
    norm_num
  · refine ⟨?_, fun h => by simp at h⟩
    rw [heur, if_pos (by simp)]
    exact round2_fx_conv (by norm_num)
  · refine ⟨?_, fun h => by simp at h⟩
    rw [husd, if_pos (by simp)]
    exact round2_fx_conv (by norm_num)
  · refine ⟨?_, fun h => by simp at h⟩
    rw [hgbp, if_pos (by simp)]
    exact round2_fx_conv (by norm_num)

/-- C5: for every holding and every deposit record of any run of the
generator, the emitted currency amount times the record's FX rate equals
the emitted base-currency (CHF) amount within the tolerance induced by
rounding both fields to two decimals (half an ulp on each side), and for
records whose currency is the base currency CHF the FX rate is exactly 1
and the two amounts are exactly equal. -/
theorem C5_fx_round_trip (nc : Nat) (e : Entropy) (tl : ℚ) (as_of : ℤ)
    (dv : ℚ) (cids : List String) (r r' : RNG) :
    (∀ rec ∈ (generate_hqla_holdings
        (FINMALCRDataGenerator.init nc e tl).1 as_of dv r).1,
      |rec.MARKET_VALUE_CCY * rec.FX_RATE - rec.MARKET_VALUE_CHF|
          ≤ (1 + rec.FX_RATE) / 200
        ∧ (rec.CURRENCY = "CHF" →
            rec.FX_RATE = 1 ∧ rec.MARKET_VALUE_CCY = rec.MARKET_VALUE_CHF))
    ∧ (∀ rec ∈ (generate_deposit_balances
        (FINMALCRDataGenerator.init nc e tl).1 as_of cids r').1,
      |rec.BALANCE_CCY * rec.FX_RATE - rec.BALANCE_CHF|
          ≤ (1 + rec.FX_RATE) / 200
        ∧ (rec.CURRENCY = "CHF" →
            rec.FX_RATE = 1 ∧ rec.BALANCE_CCY = rec.BALANCE_CHF)) := by
  constructor
  · intro rec hmem
    obtain ⟨j, ty, cc, r2, heq, hslot⟩ :=
      holdLoop_shape _ as_of dv _ _ _ rec hmem
    have hcc : cc ∈ ["CHF", "EUR", "USD", "GBP"] := by
      have h3 := (List.of_mem_zip hslot).2
      have h4 := RNG.choiceVec_mem ""
        (show ((FINMALCRDataGenerator.init nc e tl).1.tables.currencies.map
          (·.code)) ≠ [] from by intro hh; exact List.noConfusion hh) _ _ cc h3
      exact (show ((FINMALCRDataGenerator.init nc e tl).1.tables.currencies.map
        (·.code)) = ["CHF", "EUR", "USD", "GBP"] from rfl) ▸ h4
    subst heq
    obtain ⟨v, hchf, hccy, hfx, hcur⟩ := mkHolding_conv _ as_of dv j ty cc r2
    rw [hchf, hccy, hfx, hcur]
    exact fx_conv_cases v hcc
  · intro rec hmem
    obtain ⟨cust, ty, cc, ord, r2, heq, hslot⟩ :=
      depLoop_shape _ as_of _ _ _ rec hmem
    have hcc3 : cc ∈ ["CHF", "EUR", "USD"] := by
      have h2 := (List.of_mem_zip hslot).2
      have h3 := (List.of_mem_zip h2).2
      exact RNG.choiceVec_mem ""
        (by intro hh; exact List.noConfusion hh) _ _ cc h3
    have hcc : cc ∈ ["CHF", "EUR", "USD", "GBP"] := by
      simp only [List.mem_cons, List.not_mem_nil, or_false] at hcc3 ⊢
      tauto
    subst heq
    have hp := mkDeposit_proj
      (FINMALCRDataGenerator.init nc e tl).1.tables as_of cust ty cc ord r2
    rw [hp.2.2.1, hp.2.2.2.2.2.1, hp.2.2.2.2.2.2.2.1, hp.2.2.2.2.2.2.2.2]
    exact fx_conv_cases _ hcc

theorem C5_fx_round_trip_witness :
    |((generate_deposit_balances sampleState 0 ["CUST_00001"] sampleRNG).1.headD
          default).BALANCE_CCY
        * ((generate_deposit_balances sampleState 0 ["CUST_00001"] sampleRNG).1.headD
          default).FX_RATE
        - ((generate_deposit_balances sampleState 0 ["CUST_00001"] sampleRNG).1.headD
          default).BALANCE_CHF|
      ≤ (1 + ((generate_deposit_balances sampleState 0 ["CUST_00001"] sampleRNG).1.headD
          default).FX_RATE) / 200
    ∧ (((generate_deposit_balances sampleState 0 ["CUST_00001"] sampleRNG).1.headD
          default).CURRENCY = "CHF" →
        ((generate_deposit_balances sampleState 0 ["CUST_00001"] sampleRNG).1.headD
          default).FX_RATE = 1
        ∧ ((generate_deposit_balances sampleState 0 ["CUST_00001"] sampleRNG).1.headD
          default).BALANCE_CCY
          = ((generate_deposit_balances sampleState 0 ["CUST_00001"] sampleRNG).1.headD
            default).BALANCE_CHF) :=
  (C5_fx_round_trip 2 zeroEntropy 95 0 0 ["CUST_00001"] sampleRNG sampleRNG).2 _
    (by with_unfolding_all exact List.mem_cons_self _ _)

/-- C6: the customer segment is a pure function of the counterparty type
and the sampled balance in base currency — RETAIL balances below 50000 map
to MASS, below 250000 to AFFLUENT, otherwise PRIVATE, and every non-RETAIL
counterparty maps to CORPORATE; every emitted record's segment is this
function applied to its counterparty type and the pre-rounding balance
underlying its `BALANCE_CHF`, never a separate RNG draw. -/
theorem C6_segment_pure_function :
    (∀ b : ℚ, b < 50000 → customerSegment "RETAIL" b = "MASS")
    ∧ (∀ b : ℚ, 50000 ≤ b → b < 250000 →
        customerSegment "RETAIL" b = "AFFLUENT")
    ∧ (∀ b : ℚ, 250000 ≤ b → customerSegment "RETAIL" b = "PRIVATE")
    ∧ (∀ (cpty : String) (b : ℚ), cpty ≠ "RETAIL" →
        customerSegment cpty b = "CORPORATE")
    ∧ (∀ (g : GenState) (as_of : ℤ) (cids : List String) (r : RNG),
        ∀ rec ∈ (generate_deposit_balances g as_of cids r).1,
          ∃ b : ℚ, rec.BALANCE_CHF = round2 b
            ∧ rec.CUSTOMER_SEGMENT
                = customerSegment rec.COUNTERPARTY_TYPE b) := by
  refine ⟨?_, ?_, ?_, ?_, ?_⟩
  · intro b hb
    rw [customerSegment, if_pos rfl, if_pos hb]
  · intro b hb1 hb2
    rw [customerSegment, if_pos rfl, if_neg (not_lt.2 hb1), if_pos hb2]
  · intro b hb
    rw [customerSegment, if_pos rfl, if_neg (not_lt.2 (by linarith)),
      if_neg (not_lt.2 hb)]
  · intro cpty b hc
    rw [customerSegment, if_neg hc]
  · intro g as_of cids r rec hmem
    obtain ⟨cust, ty, cc, ord, r', heq, -⟩ :=
      depLoop_shape g.tables as_of _ _ _ rec hmem
    subst heq
    have hp := mkDeposit_proj g.tables as_of cust ty cc ord r'
    refine ⟨(drawBalance (metaOf g.tables ty).counterparty r').1,
      hp.2.2.2.2.2.1, ?_⟩
    rw [hp.2.2.2.2.2.2.1, hp.2.2.2.1]

theorem C6_segment_pure_function_witness :
    customerSegment "RETAIL" 0 = "MASS" :=
  C6_segment_pure_function.1 0 (by norm_num)

/-- C7: every call of `generate_hqla_holdings` draws its holding count as
an integer in [150, 300) and returns exactly that many records, hence
between 150 and 299 records inclusive, on every day of every run. -/
theorem C7_holdings_count_bounds (g : GenState) (as_of : ℤ) (dv : ℚ)
    (r : RNG) :
    ((generate_hqla_holdings g as_of dv r).1).length = (r.integers 150 300).1
    ∧ 150 ≤ ((generate_hqla_holdings g as_of dv r).1).length
    ∧ ((generate_hqla_holdings g as_of dv r).1).length ≤ 299 := by
  have hlen : ((generate_hqla_holdings g as_of dv r).1).length
      = (r.integers 150 300).1 := by
    show ((holdLoop g.tables as_of dv 0 _ _).1).length = _
    rw [holdLoop_length, List.length_zip, RNG.choiceVec_length,
      RNG.choiceVec_length]
    exact Nat.min_self _
  have h1 := RNG.integers_ge r 150 300
  have h2 := RNG.integers_lt r (show 150 < 300 by norm_num)
  exact ⟨hlen, by omega, by omega⟩

/-- C8: calling `generate_deposit_balances` with an empty customer list
returns an empty record set; the embedding is total, so no error is
raised on this degenerate input. -/
theorem C8_empty_customers (g : GenState) (as_of : ℤ) (r : RNG) :
    (generate_deposit_balances g as_of [] r).1 = [] := rfl

/-- C9: the target-LCR parameter has no influence on the generated data —
for every seed-stream, date range and customer list, generators
constructed with any two target_lcr values produce identical
`generate_time_series` output (per-day holding and deposit record lists
and totals): the parameter is stored at construction and never read by any
sampling operation. -/
theorem C9_target_lcr_unused (nc : Nat) (e : Entropy) (t1 t2 : ℚ)
    (start_date : ℤ) (num_days : Nat) (cids : Option (List String)) :
    generate_time_series (FINMALCRDataGenerator.init nc e t1).1 start_date
        num_days cids (FINMALCRDataGenerator.init nc e t1).2
    = generate_time_series (FINMALCRDataGenerator.init nc e t2).1 start_date
        num_days cids (FINMALCRDataGenerator.init nc e t2).2 := rfl

/-- C10: every deposit record's currency is CHF, EUR or USD: the deposit
currency draw uses the literal three-element list, excluding GBP (which
appears with weight 0.05 in the holdings currency table), so no deposit
record carries currency GBP or the GBP FX rate 1.12. -/
theorem C10_deposit_currencies (nc : Nat) (e : Entropy) (tl : ℚ)
    (as_of : ℤ) (cids : List String) (r : RNG) (rec : DepositRecord)
    (hmem : rec ∈ (generate_deposit_balances
      (FINMALCRDataGenerator.init nc e tl).1 as_of cids r).1) :
    (rec.CURRENCY = "CHF" ∨ rec.CURRENCY = "EUR" ∨ rec.CURRENCY = "USD")
    ∧ rec.CURRENCY ≠ "GBP" ∧ rec.FX_RATE ≠ 112/100 := by
  obtain ⟨cust, ty, cc, ord, r', heq, hslot⟩ :=
    depLoop_shape _ as_of _ _ _ rec hmem
  have hcc : cc ∈ ["CHF", "EUR", "USD"] := by
    have h2 := (List.of_mem_zip hslot).2
    have h3 := (List.of_mem_zip h2).2
    exact RNG.choiceVec_mem ""
      (by intro hh; exact List.noConfusion hh) _ _ cc h3
  subst heq
  have hp := mkDeposit_proj
    (FINMALCRDataGenerator.init nc e tl).1.tables as_of cust ty cc ord r'
  rw [hp.2.2.1, hp.2.2.2.2.2.2.2.1]
  have hchf : (fx_rates.lookup "CHF").getD 1 = 1 := by with_unfolding_all rfl
  have heur : (fx_rates.lookup "EUR").getD 1 = 95/100 := by
    with_unfolding_all rfl
  have husd : (fx_rates.lookup "USD").getD 1 = 88/100 := by
    with_unfolding_all rfl
  fin_cases hcc
  · refine ⟨Or.inl rfl, by simp, ?_⟩
    rw [show ((FINMALCRDataGenerator.init nc e tl).1.tables.fx_rates
      = fx_rates) from rfl, hchf]
    norm_num
  · refine ⟨Or.inr (Or.inl rfl), by simp, ?_⟩
    rw [show ((FINMALCRDataGenerator.init nc e tl).1.tables.fx_rates
      = fx_rates) from rfl, heur]
    norm_num
  · refine ⟨Or.inr (Or.inr rfl), by simp, ?_⟩
    rw [show ((FINMALCRDataGenerator.init nc e tl).1.tables.fx_rates
      = fx_rates) from rfl, husd]
    norm_num

theorem C10_deposit_currencies_witness :
    ((((generate_deposit_balances sampleState 0 ["CUST_00001"]
        sampleRNG).1.headD default).CURRENCY = "CHF"
      ∨ ((generate_deposit_balances sampleState 0 ["CUST_00001"]
        sampleRNG).1.headD default).CURRENCY = "EUR"
      ∨ ((generate_deposit_balances sampleState 0 ["CUST_00001"]
        sampleRNG).1.headD default).CURRENCY = "USD")
    ∧ ((generate_deposit_balances sampleState 0 ["CUST_00001"]
        sampleRNG).1.headD default).CURRENCY ≠ "GBP"
    ∧ ((generate_deposit_balances sampleState 0 ["CUST_00001"]
        sampleRNG).1.headD default).FX_RATE ≠ 112/100) :=
  C10_deposit_currencies 2 zeroEntropy 95 0 ["CUST_00001"] sampleRNG _
    (by with_unfolding_all exact List.mem_cons_self _ _)

end LCRGen
